import Mathlib

/-!
Verification of the subsync framerate detector and timestamp rescaler.

The definitions below are a shallow embedding of the Rust sources
(framerate detection in the detector module, timestamp conversion in the
subtitle parsing module).  Machine integers (`i32`) are modelled as `Int`
(no arithmetic here approaches the `i32` range for the inputs considered),
and `f32` values are modelled as exact rationals `ℚ`; `as i32` casts of
positive floats are modelled by `Int.floor` (truncation toward zero agrees
with flooring on nonnegative values), and `f32::round` (round half away
from zero) is modelled by `round` (round half up) — the two agree on all
nonnegative arguments, and at negative half-integers both return an
integer at distance exactly 1/2, which no predicate below distinguishes.
The two `i32 as f32` casts that can lose precision — of `duration_ms` in
the duration-pattern test and of the millisecond value in the timestamp
converter — are modelled by `f32cast`, IEEE round-to-nearest (ties to
even) at 24 significant bits.  The remaining float arithmetic (divisions
by the nonzero table constants, the multiplication by a ratio that the
claims only exercise at the exact value 1.0, subtractions of a value from
its own rounding, which are exact by Sterbenz's lemma) is modelled by
exact rational arithmetic, and every claim stated over it is confined to
inputs where its rounding cannot change a compared outcome.
Rust's `HashMap` iteration order is modelled explicitly by an `ord`
parameter listing the keys; the canonical instantiation uses
first-occurrence order.
-/

namespace Subsync

/-- Timing information for one subtitle cue, as in the Rust struct
`SubtitleTiming` (fields `start_ms`, `end_ms`, `duration_ms`, all `i32`). -/
structure SubtitleTiming where
  start_ms : Int
  end_ms : Int
  duration_ms : Int
deriving DecidableEq

/-- Framerate detection result, as in the Rust struct `FramerateDetection`
(`framerate : f32`, `confidence : f32`, `method : String`). -/
structure FramerateDetection where
  framerate : ℚ
  confidence : ℚ
  method : String
deriving DecidableEq

/-- The fixed candidate framerate table `COMMON_FRAMERATES`. -/
def COMMON_FRAMERATES : List ℚ := [23.976, 24.0, 25.0, 29.97, 30.0, 50.0, 59.94, 60.0]

/-- Nearest multiple of `u` to `n`, ties going to the even multiple
(`u > 0`; for `n < 0` the Euclidean remainder keeps the same
nearest-with-even-tie behaviour on the number line, matching IEEE
round-to-nearest-even since a multiple's mantissa parity is the parity of
its quotient by the ulp). -/
def roundEvenMult (u n : ℤ) : ℤ :=
  if 2 * (n % u) < u then u * (n / u)
  else if u < 2 * (n % u) then u * (n / u) + u
  else if (n / u) % 2 = 0 then u * (n / u) else u * (n / u) + u

/-- Unit in the last place of the `f32` binade containing the integer `n`:
1 below `2^24` (where every integer is exactly representable) and doubling
with each binade up to the `i32` range (`|n| ≤ 2^31`). -/
def f32ulpOf (n : ℤ) : ℤ :=
  if |n| < 16777216 then 1
  else if |n| < 33554432 then 2
  else if |n| < 67108864 then 4
  else if |n| < 134217728 then 8
  else if |n| < 268435456 then 16
  else if |n| < 536870912 then 32
  else if |n| < 1073741824 then 64
  else 128

/-- Value of the Rust cast `n as f32` for an `i32` value `n`: the integral
`f32` nearest `n`, ties to even, exact below `2^24`. -/
def f32cast (n : ℤ) : ℤ := roundEvenMult (f32ulpOf n) n

/-- Gaps between consecutive cues (`timings[i].start_ms - timings[i-1].end_ms`),
keeping only those strictly between 0 and 10000 ms, exactly as the filter
in `detect_by_intervals`. -/
def intervalsOf (timings : List SubtitleTiming) : List Int :=
  ((timings.zip timings.tail).map fun p => p.2.start_ms - p.1.end_ms).filter
    fun i => decide (0 < i ∧ i < 10000)

/-- Bucketing of a gap to its 100 ms bucket: `(interval / 100) * 100`.
The Rust `/` on `i32` truncates toward zero; every value reaching this
function is positive (the filter in `intervalsOf`), where truncating and
Euclidean division agree. -/
def bucketOf (i : Int) : Int := i / 100 * 100

/-- The list of bucketed gaps (the multiset of keys fed to `interval_counts`). -/
def bucketsOf (timings : List SubtitleTiming) : List Int :=
  (intervalsOf timings).map bucketOf

/-- Key set of a multiset of buckets, in first occurrence order.  This is
the canonical stand-in for the key enumeration order of the Rust `HashMap`
`interval_counts` (whose real order is arbitrary; see `detect_by_intervals_with`). -/
def keysOf (l : List Int) : List Int :=
  l.foldl (fun acc i => if i ∈ acc then acc else acc ++ [i]) []

/-- Model of `Iterator::max_by_key`: the last element of the enumeration
attaining the maximal count (`max_by_key` returns the last maximum). -/
def lastMax? (cnt : Int → Nat) (ord : List Int) : Option Int :=
  ord.foldl
    (fun acc k =>
      match acc with
      | none => some k
      | some b => if cnt b ≤ cnt k then some k else some b)
    none

/-- Expected gap magnitudes at 1, 2 and 3 frame multiples of the frame
duration `1000/fps`, each truncated to an integer (`as i32`; truncation and
flooring agree on these positive values). -/
def expected_intervals (fps : ℚ) : List Int :=
  let frame_duration_ms : ℚ := 1000 / fps
  [⌊frame_duration_ms⌋, ⌊frame_duration_ms * 2⌋, ⌊frame_duration_ms * 3⌋]

/-- Body of the candidate-framerate loop of `detect_by_intervals`: the first
expected gap magnitude within 50 ms of the bucketed gap, if any, turned into
a detection with confidence `(1 - diff/50) * 0.7`. -/
def intervalMatch (bucket : Int) (fps : ℚ) : Option FramerateDetection :=
  ((expected_intervals fps).find? fun e => decide ((bucket - e).natAbs < 50)).map fun e =>
    ⟨fps, (1 - ((bucket - e).natAbs : ℚ) / 50) * 0.7, "interval_analysis"⟩

/-- Interval-analysis method `detect_by_intervals`, parameterized by the
`HashMap` key enumeration order `ord`. -/
def detect_by_intervals_with (ord : List Int) (timings : List SubtitleTiming) :
    Option FramerateDetection :=
  if timings.length < 10 then none
  else
    let intervals := intervalsOf timings
    if intervals = [] then none
    else
      match lastMax? (fun k => (intervals.map bucketOf).count k) ord with
      | none => none
      | some b => COMMON_FRAMERATES.findSome? (intervalMatch b)

/-- Interval-analysis method with the canonical key order. -/
def detect_by_intervals (timings : List SubtitleTiming) : Option FramerateDetection :=
  detect_by_intervals_with (keysOf (bucketsOf timings)) timings

/-- Predicate for one cue of the duration-pattern loop: the duration in frame
units (`timing.duration_ms as f32 / frame_duration_ms`) is within 0.1 of a
whole number of frames.  The lossy `i32 as f32` cast of the duration is
modelled by `f32cast`; the division by the frame duration is exact here,
which can differ from `f32` only when the quotient sits within about one
part in `2^24` of an alignment boundary — a regime no claim below enters. -/
def frameAligned (fps : ℚ) (tm : SubtitleTiming) : Bool :=
  let frames : ℚ := ((f32cast tm.duration_ms : ℤ) : ℚ) / (1000 / fps)
  decide (|frames - (round frames : ℚ)| < 0.1)

/-- Fraction of cues whose duration aligns with frame boundaries at `fps`
(`aligned_count as f32 / total_count as f32`; `total_count` is the number of
cues). -/
def alignFrac (timings : List SubtitleTiming) (fps : ℚ) : ℚ :=
  (timings.countP (frameAligned fps) : ℚ) / (timings.length : ℚ)

/-- One step of the best-match loop of `detect_by_duration_patterns`:
state is `(best_match, best_score)`. -/
def duration_step (timings : List SubtitleTiming)
    (acc : Option FramerateDetection × ℚ) (fps : ℚ) :
    Option FramerateDetection × ℚ :=
  let frac := alignFrac timings fps
  if frac > acc.2 ∧ frac > 0.6 then
    (some ⟨fps, frac * 0.8, "duration_pattern"⟩, frac)
  else acc

/-- Duration-pattern method `detect_by_duration_patterns`. -/
def detect_by_duration_patterns (timings : List SubtitleTiming) :
    Option FramerateDetection :=
  if timings.length < 20 then none
  else (COMMON_FRAMERATES.foldl (duration_step timings) (none, 0)).1

/-- NTSC heuristic `has_ntsc_indicators`: subtitle density per minute above 10.
In `f32`, a zero total duration makes the density `+∞` (positive count divided
by zero), so the comparison with 10 succeeds; the zero case is modelled by an
explicit branch. -/
def has_ntsc_indicators (timings : List SubtitleTiming) : Bool :=
  match timings.head?, timings.getLast? with
  | some first, some last =>
    let total_duration := last.end_ms - first.start_ms
    if total_duration = 0 then true
    else decide ((timings.length : ℚ) / ((total_duration : ℚ) / 60000) > 10)
  | _, _ => false

/-- Common-framerate heuristic `detect_by_common_framerates`.  The `unwrap`s
on first/last are guarded by the length check; they are modelled by `getD`
with an irrelevant default. -/
def detect_by_common_framerates (timings : List SubtitleTiming) :
    Option FramerateDetection :=
  if timings.length < 5 then none
  else
    let first := timings.head?.getD ⟨0, 0, 0⟩
    let last := timings.getLast?.getD ⟨0, 0, 0⟩
    let total_duration := last.end_ms - first.start_ms
    let confidence_boost : ℚ := if total_duration > 3600000 then 0.1 else 0
    let default_fps : ℚ := if has_ntsc_indicators timings then 29.97 else 25.0
    some ⟨default_fps, 0.5 + confidence_boost, "common_framerate_heuristic"⟩

/-- Stable insertion of a detection into a list sorted by descending
confidence; an earlier element goes before later elements of equal
confidence, matching the stability of Rust's `sort_by`. -/
def insertDesc (a : FramerateDetection) :
    List FramerateDetection → List FramerateDetection
  | [] => [a]
  | b :: l => if b.confidence > a.confidence then b :: insertDesc a l else a :: b :: l

/-- Stable sort by descending confidence, modelling
`detections.sort_by(|a, b| b.confidence.partial_cmp(&a.confidence).unwrap())`
(Rust's `sort_by` is a stable sort, so any stable sort yields the same list). -/
def sortDesc : List FramerateDetection → List FramerateDetection
  | [] => []
  | a :: l => insertDesc a (sortDesc l)

/-- The detections vector in push order: interval analysis, then duration
patterns, then the common-framerate heuristic (absent methods contribute
nothing). -/
def collect_detections_with (ord : List Int) (timings : List SubtitleTiming) :
    List FramerateDetection :=
  (detect_by_intervals_with ord timings).toList
    ++ (detect_by_duration_patterns timings).toList
    ++ (detect_by_common_framerates timings).toList

/-- Ensemble entry point `detect_framerate`, parameterized by the bucket key
enumeration order used by the interval method. -/
def detect_framerate_with (ord : List Int) (timings : List SubtitleTiming) :
    FramerateDetection :=
  if timings.isEmpty then ⟨29.97, 0.0, "default"⟩
  else (sortDesc (collect_detections_with ord timings)).headD ⟨29.97, 0.1, "fallback"⟩

/-- Ensemble entry point with the canonical key order. -/
def detect_framerate (timings : List SubtitleTiming) : FramerateDetection :=
  detect_framerate_with (keysOf (bucketsOf timings)) timings

/-- The detections vector with the canonical key order. -/
def collect_detections (timings : List SubtitleTiming) : List FramerateDetection :=
  collect_detections_with (keysOf (bucketsOf timings)) timings

/-- Validity of a key enumeration order for the interval method's bucket
map on `timings`: it lists exactly the distinct buckets, each once.  Every
iteration order of the Rust `HashMap` satisfies this. -/
def ValidBucketOrder (timings : List SubtitleTiming) (ord : List Int) : Prop :=
  ord.Nodup ∧ ∀ k, k ∈ ord ↔ k ∈ keysOf (bucketsOf timings)

/-- Division that fails instead of producing the IEEE result when the divisor
is zero.  In `f32`, `0.0 / 0.0` is NaN; a NaN confidence is exactly what would
make the `partial_cmp(..).unwrap()` in `detect_framerate` panic.  The checked
variants below thread this through the one confidence computation whose
divisor is runtime data (the alignment fraction `aligned/total`). -/
def qdiv? (a b : ℚ) : Option ℚ := if b = 0 then none else some (a / b)

/-- Checked alignment fraction: fails iff the divisor `total_count` is zero. -/
def alignFrac? (timings : List SubtitleTiming) (fps : ℚ) : Option ℚ :=
  qdiv? (timings.countP (frameAligned fps) : ℚ) (timings.length : ℚ)

/-- Checked step of the duration-pattern loop. -/
def duration_step_checked (timings : List SubtitleTiming)
    (acc : Option (Option FramerateDetection × ℚ)) (fps : ℚ) :
    Option (Option FramerateDetection × ℚ) :=
  match acc with
  | none => none
  | some (best, score) =>
    match alignFrac? timings fps with
    | none => none
    | some frac =>
      some
        (if frac > score ∧ frac > 0.6 then
          (some ⟨fps, frac * 0.8, "duration_pattern"⟩, frac)
        else (best, score))

/-- Checked duration-pattern method: `none` marks a run in which a confidence
could have been computed by a division by zero (hence NaN in `f32`). -/
def detect_by_duration_patterns_checked (timings : List SubtitleTiming) :
    Option (Option FramerateDetection) :=
  if timings.length < 20 then some none
  else
    (COMMON_FRAMERATES.foldl (duration_step_checked timings) (some (none, 0))).map
      Prod.fst

/-- Checked ensemble: fails iff some collected confidence could have been NaN,
which is when the comparison `partial_cmp(..).unwrap()` in the Rust selection
sort would panic.  The interval and heuristic confidences only ever divide by
the nonzero literals 50 and 10/…, so only the duration method is threaded. -/
def detect_framerate_checked (timings : List SubtitleTiming) :
    Option FramerateDetection :=
  if timings.isEmpty then some ⟨29.97, 0.0, "default"⟩
  else
    (detect_by_duration_patterns_checked timings).map fun dur =>
      (sortDesc
        ((detect_by_intervals timings).toList ++ dur.toList
          ++ (detect_by_common_framerates timings).toList)).headD
        ⟨29.97, 0.1, "fallback"⟩

/-- Parsed timestamp value with the four fields of the `HH:MM:SS,mmm` textual
form.  The parsing regex admits two digits for hours, minutes and seconds and
three for milliseconds; rendering via the Rust format string is injective on
such field values, so timestamp identity is field identity. -/
structure Timestamp where
  hours : Int
  minutes : Int
  seconds : Int
  millis : Int
deriving DecidableEq

/-- Field bounds guaranteed by the parsing regex (`\d{2}` and `\d{3}`). -/
def ValidTimestamp (ts : Timestamp) : Prop :=
  0 ≤ ts.hours ∧ ts.hours ≤ 99 ∧ 0 ≤ ts.minutes ∧ ts.minutes ≤ 99 ∧
    0 ≤ ts.seconds ∧ ts.seconds ≤ 99 ∧ 0 ≤ ts.millis ∧ ts.millis ≤ 999

instance (ts : Timestamp) : Decidable (ValidTimestamp ts) := by
  unfold ValidTimestamp; exact inferInstance

/-- Minutes and seconds fields below 60, as in a clock-canonical timestamp. -/
def CanonicalTimestamp (ts : Timestamp) : Prop :=
  ts.minutes ≤ 59 ∧ ts.seconds ≤ 59

instance (ts : Timestamp) : Decidable (CanonicalTimestamp ts) := by
  unfold CanonicalTimestamp; exact inferInstance

/-- Conversion `timestamp_to_milliseconds` (the regex parse of the digit
fields is abstracted away; the arithmetic is exactly the source's). -/
def timestamp_to_milliseconds (ts : Timestamp) : Int :=
  ts.hours * 3600000 + ts.minutes * 60000 + ts.seconds * 1000 + ts.millis

/-- Conversion `milliseconds_to_timestamp`.  The divisions mirror the Rust
`i32` divisions; every caller below passes a nonnegative `ms`, where Euclidean
and truncating division agree. -/
def milliseconds_to_timestamp (ms : Int) : Timestamp :=
  let hours := ms / 3600000
  let minutes := (ms - hours * 3600000) / 60000
  let seconds := (ms - hours * 3600000 - minutes * 60000) / 1000
  let millis := ms - hours * 3600000 - minutes * 60000 - seconds * 1000
  ⟨hours, minutes, seconds, millis⟩

/-- Transform `convert_timestamp`: compute `(ms as f32 * ratio).round() as i32`
and re-render.  The lossy `ms as f32` cast is modelled by `f32cast` (valid
timestamps reach 362,439,999 ms, far beyond the 2^24 exact range); the
multiplication is modelled exactly, which agrees with `f32` at the ratio 1.0
the claims exercise (`x * 1.0` is exact); `f32::round` agrees with `round`
on these nonnegative values. -/
def convert_timestamp (ts : Timestamp) (r : ℚ) : Timestamp :=
  milliseconds_to_timestamp (round ((f32cast (timestamp_to_milliseconds ts) : ℚ) * r))

/-- The conversion ratio `from_fps / to_fps` from `convert_framerate`,
applied to a single timestamp. -/
def convert_timestamp_fps (ts : Timestamp) (from_fps to_fps : ℚ) : Timestamp :=
  convert_timestamp ts (from_fps / to_fps)

/-- Left-biased binary maximum by confidence: keeps the earlier argument on
ties.  This is the specification device used to characterize the head of the
stable descending sort. -/
def pick (a b : FramerateDetection) : FramerateDetection :=
  if b.confidence > a.confidence then b else a

/-- Earliest maximal-confidence element of a list, as a fold. -/
def pickBest : List FramerateDetection → Option FramerateDetection :=
  List.foldl
    (fun acc x =>
      match acc with
      | none => some x
      | some b => if x.confidence > b.confidence then some x else some b)
    none

theorem foldl_pick_some (l : List FramerateDetection) (a : FramerateDetection) :
    List.foldl
      (fun acc x =>
        match acc with
        | none => some x
        | some b => if x.confidence > b.confidence then some x else some b)
      (some a) l = some (l.foldl pick a) := by
  induction l generalizing a with
  | nil => rfl
  | cons x xs ih =>
    simp only [List.foldl_cons, pick]
    split <;> simp [ih, pick]

theorem pickBest_cons (a : FramerateDetection) (l : List FramerateDetection) :
    pickBest (a :: l) = some (l.foldl pick a) := by
  simp [pickBest, List.foldl_cons, foldl_pick_some]

theorem pick_assoc (a b c : FramerateDetection) :
    pick (pick a b) c = pick a (pick b c) := by
  unfold pick
  rcases lt_trichotomy a.confidence b.confidence with h1 | h1 | h1 <;>
    rcases lt_trichotomy b.confidence c.confidence with h2 | h2 | h2 <;>
    split_ifs <;> first | rfl | (exfalso; linarith)

theorem foldl_pick_eq (l : List FramerateDetection) (a : FramerateDetection) :
    l.foldl pick a =
      (match pickBest l with
      | none => a
      | some m => pick a m) := by
  induction l generalizing a with
  | nil => rfl
  | cons x xs ih =>
    simp only [List.foldl_cons, pickBest_cons]
    rw [ih (pick a x), ih x]
    cases h : pickBest xs with
    | none => simp
    | some m => simp [pick_assoc]

theorem head?_insertDesc (a : FramerateDetection) (s : List FramerateDetection) :
    (insertDesc a s).head? =
      some
        (match s.head? with
        | none => a
        | some b => pick a b) := by
  cases s with
  | nil => rfl
  | cons b t =>
    simp only [insertDesc, pick]
    split <;> simp [*]

theorem head?_sortDesc (l : List FramerateDetection) :
    (sortDesc l).head? = pickBest l := by
  induction l with
  | nil => rfl
  | cons a l ih =>
    rw [sortDesc, head?_insertDesc, ih, pickBest_cons, foldl_pick_eq]

theorem pickBest_eq_none (l : List FramerateDetection) :
    pickBest l = none ↔ l = [] := by
  cases l with
  | nil => simp [pickBest]
  | cons a l => simp [pickBest_cons]

/-- The earliest-maximum characterization of `pickBest`: the result is an
element of the list, no element has larger confidence, and every strictly
earlier element has strictly smaller confidence. -/
theorem pickBest_spec (l : List FramerateDetection) (d : FramerateDetection)
    (h : pickBest l = some d) :
    ∃ i : Fin l.length,
      d = l.get i ∧
        (∀ j : Fin l.length, (l.get j).confidence ≤ d.confidence) ∧
        ∀ j : Fin l.length, (j : ℕ) < (i : ℕ) → (l.get j).confidence < d.confidence := by
  induction l generalizing d with
  | nil => simp [pickBest] at h
  | cons a l ih =>
    rw [pickBest_cons, foldl_pick_eq] at h
    cases hl : pickBest l with
    | none =>
      rw [hl] at h
      obtain rfl : a = d := by simpa using h
      have hnil : l = [] := (pickBest_eq_none l).mp hl
      subst hnil
      refine ⟨⟨0, by simp⟩, rfl, ?_, ?_⟩
      · rintro ⟨j, hj⟩
        simp only [List.length_singleton] at hj
        have hj0 : j = 0 := by omega
        subst hj0
        simp
      · rintro ⟨j, hj⟩ h0
        simp at h0
    | some m =>
      rw [hl] at h
      obtain ⟨i', him, hmax, hstrict⟩ := ih m hl
      simp only [pick] at h
      by_cases hc : m.confidence > a.confidence
      · rw [if_pos hc] at h
        obtain rfl : m = d := by simpa using h
        refine ⟨i'.succ, by simpa using him, ?_, ?_⟩
        · intro j
          rcases Fin.eq_zero_or_eq_succ j with rfl | ⟨j', rfl⟩
          · simpa using le_of_lt hc
          · simpa using hmax j'
        · intro j hj
          rcases Fin.eq_zero_or_eq_succ j with rfl | ⟨j', rfl⟩
          · simpa using hc
          · exact hstrict j' (by simpa using hj)
      · rw [if_neg hc] at h
        obtain rfl : a = d := by simpa using h
        push_neg at hc
        refine ⟨⟨0, by simp⟩, by simp, ?_, ?_⟩
        · intro j
          rcases Fin.eq_zero_or_eq_succ j with rfl | ⟨j', rfl⟩
          · simp
          · simpa using le_trans (hmax j') hc
        · intro j hj; simp at hj

theorem pickBest_mem (l : List FramerateDetection) (d : FramerateDetection)
    (h : pickBest l = some d) : d ∈ l := by
  obtain ⟨i, rfl, -, -⟩ := pickBest_spec l d h
  exact List.get_mem l i.1 i.2

theorem pickBest_max (l : List FramerateDetection) (d : FramerateDetection)
    (h : pickBest l = some d) : ∀ b ∈ l, b.confidence ≤ d.confidence := by
  obtain ⟨i, rfl, hmax, -⟩ := pickBest_spec l d h
  intro b hb
  obtain ⟨j, rfl⟩ := List.mem_iff_get.mp hb
  exact hmax j

/-- Dropping the head of the candidate list does not change the selection
when some later candidate has strictly larger confidence. -/
theorem pickBest_cons_of_lt (a : FramerateDetection) (l : List FramerateDetection)
    (h : ∃ b ∈ l, a.confidence < b.confidence) : pickBest (a :: l) = pickBest l := by
  obtain ⟨b, hb, hab⟩ := h
  have hne : l ≠ [] := by rintro rfl; simp at hb
  obtain ⟨m, hm⟩ : ∃ m, pickBest l = some m := by
    cases hl : pickBest l with
    | none => exact absurd ((pickBest_eq_none l).mp hl) hne
    | some m => exact ⟨m, rfl⟩
  have ham : a.confidence < m.confidence :=
    lt_of_lt_of_le hab (pickBest_max l m hm b hb)
  rw [pickBest_cons, foldl_pick_eq, hm]
  simp [pick, ham]

/-- In the nonempty case, `detect_framerate` is the earliest maximum of the
collected detections, with the fixed fallback when all methods abstained. -/
theorem detect_framerate_with_eq_pickBest (ord : List Int)
    (timings : List SubtitleTiming) (h : timings ≠ []) :
    detect_framerate_with ord timings =
      (pickBest (collect_detections_with ord timings)).getD ⟨29.97, 0.1, "fallback"⟩ := by
  rw [detect_framerate_with, if_neg (by simpa using h)]
  rw [← head?_sortDesc]
  cases hs : (sortDesc (collect_detections_with ord timings)).head? with
  | none => simp [List.headD_eq_head?, hs]
  | some d => simp [List.headD_eq_head?, hs]

theorem intervalMatch_spec (b : Int) (fps : ℚ) (d : FramerateDetection)
    (h : intervalMatch b fps = some d) :
    d.framerate = fps ∧ d.method = "interval_analysis" ∧
      ∃ n : ℕ, n < 50 ∧ d.confidence = (1 - (n : ℚ) / 50) * 0.7 := by
  unfold intervalMatch at h
  rw [Option.map_eq_some'] at h
  obtain ⟨e, hf, rfl⟩ := h
  have hp := List.find?_some hf
  rw [decide_eq_true_eq] at hp
  exact ⟨rfl, rfl, (b - e).natAbs, hp, rfl⟩

theorem expected_intervals_23976 : expected_intervals 23.976 = [41, 83, 125] := by
  norm_num [expected_intervals]

theorem expected_intervals_24 : expected_intervals 24.0 = [41, 83, 125] := by
  norm_num [expected_intervals]

theorem expected_intervals_25 : expected_intervals 25.0 = [40, 80, 120] := by
  norm_num [expected_intervals]

theorem expected_intervals_2997 : expected_intervals 29.97 = [33, 66, 100] := by
  norm_num [expected_intervals]

theorem expected_intervals_30 : expected_intervals 30.0 = [33, 66, 100] := by
  norm_num [expected_intervals]

theorem expected_intervals_50 : expected_intervals 50.0 = [20, 40, 60] := by
  norm_num [expected_intervals]

theorem expected_intervals_5994 : expected_intervals 59.94 = [16, 33, 50] := by
  norm_num [expected_intervals]

theorem expected_intervals_60 : expected_intervals 60.0 = [16, 33, 50] := by
  norm_num [expected_intervals]

theorem expected_intervals_bounds :
    ∀ fps ∈ COMMON_FRAMERATES, ∀ e ∈ expected_intervals fps, 16 ≤ e ∧ e ≤ 125 := by
  intro fps hf
  fin_cases hf
  · rw [expected_intervals_23976]; decide
  · rw [expected_intervals_24]; decide
  · rw [expected_intervals_25]; decide
  · rw [expected_intervals_2997]; decide
  · rw [expected_intervals_30]; decide
  · rw [expected_intervals_50]; decide
  · rw [expected_intervals_5994]; decide
  · rw [expected_intervals_60]; decide

/-- No candidate matches a bucketed gap of 200 ms or more: every expected
magnitude is at most 125 ms, beyond the 50 ms tolerance. -/
theorem intervalScan_none (b : Int) (hb : 200 ≤ b) :
    COMMON_FRAMERATES.findSome? (intervalMatch b) = none := by
  rw [List.findSome?_eq_none_iff]
  intro fps hf
  unfold intervalMatch
  rw [Option.map_eq_none']
  rw [List.find?_eq_none]
  intro e he
  have hbounds := expected_intervals_bounds fps hf e he
  simp only [decide_eq_true_eq]
  omega

/-- A bucketed gap of 0 matches the first candidate 23.976 at its one-frame
magnitude 41, with confidence `(1 - 41/50) * 0.7`. -/
theorem intervalScan_b0 :
    COMMON_FRAMERATES.findSome? (intervalMatch 0) =
      some ⟨23.976, (1 - 41 / 50) * 0.7, "interval_analysis"⟩ := by
  have h : intervalMatch 0 23.976 =
      some ⟨23.976, (1 - 41 / 50) * 0.7, "interval_analysis"⟩ := by
    rw [intervalMatch, expected_intervals_23976]
    norm_num [List.find?]
  rw [show COMMON_FRAMERATES = 23.976 :: [24.0, 25.0, 29.97, 30.0, 50.0, 59.94, 60.0] from rfl]
  rw [List.findSome?_cons, h]

/-- A bucketed gap of 100 matches the first candidate 23.976 at its two-frame
magnitude 83, with confidence `(1 - 17/50) * 0.7`. -/
theorem intervalScan_b100 :
    COMMON_FRAMERATES.findSome? (intervalMatch 100) =
      some ⟨23.976, (1 - 17 / 50) * 0.7, "interval_analysis"⟩ := by
  have h : intervalMatch 100 23.976 =
      some ⟨23.976, (1 - 17 / 50) * 0.7, "interval_analysis"⟩ := by
    rw [intervalMatch, expected_intervals_23976]
    norm_num [List.find?]
  rw [show COMMON_FRAMERATES = 23.976 :: [24.0, 25.0, 29.97, 30.0, 50.0, 59.94, 60.0] from rfl]
  rw [List.findSome?_cons, h]

theorem lastMax?_aux (cnt : Int → Nat) (l : List Int) (acc : Option Int) (b : Int)
    (h : l.foldl
      (fun acc k =>
        match acc with
        | none => some k
        | some c => if cnt c ≤ cnt k then some k else some c)
      acc = some b) :
    acc = some b ∨ b ∈ l := by
  induction l generalizing acc with
  | nil => exact Or.inl h
  | cons k l ih =>
    rw [List.foldl_cons] at h
    rcases ih _ h with hacc | hmem
    · cases acc with
      | none =>
        change some k = some b at hacc
        simp only [Option.some.injEq] at hacc
        exact Or.inr (by simp [hacc])
      | some c =>
        change (if cnt c ≤ cnt k then some k else some c) = some b at hacc
        by_cases hc : cnt c ≤ cnt k
        · rw [if_pos hc] at hacc
          simp only [Option.some.injEq] at hacc
          exact Or.inr (by simp [hacc])
        · rw [if_neg hc] at hacc
          exact Or.inl hacc
    · exact Or.inr (List.mem_cons_of_mem _ hmem)

theorem lastMax?_mem (cnt : Int → Nat) (ord : List Int) (b : Int)
    (h : lastMax? cnt ord = some b) : b ∈ ord := by
  rcases lastMax?_aux cnt ord none b h with hacc | hmem
  · simp at hacc
  · exact hmem

theorem keysOf_aux (l : List Int) (acc : List Int) (x : Int)
    (h : x ∈ l.foldl (fun acc i => if i ∈ acc then acc else acc ++ [i]) acc) :
    x ∈ acc ∨ x ∈ l := by
  induction l generalizing acc with
  | nil => exact Or.inl h
  | cons i l ih =>
    rw [List.foldl_cons] at h
    rcases ih _ h with hacc | hmem
    · by_cases hi : i ∈ acc
      · rw [if_pos hi] at hacc
        exact Or.inl hacc
      · rw [if_neg hi] at hacc
        rcases List.mem_append.mp hacc with h1 | h1
        · exact Or.inl h1
        · exact Or.inr (by simpa using Or.inl (List.mem_singleton.mp h1))
    · exact Or.inr (List.mem_cons_of_mem _ hmem)

theorem keysOf_sound (l : List Int) (x : Int) (h : x ∈ keysOf l) : x ∈ l := by
  rcases keysOf_aux l [] x h with hacc | hmem
  · simp at hacc
  · exact hmem

/-- Every bucket produced from a kept gap is a multiple of 100 between 0 and
9900 (the kept gaps are in `(0, 10000)`). -/
theorem mem_bucketsOf (t : List SubtitleTiming) (b : Int) (hb : b ∈ bucketsOf t) :
    ∃ q : ℕ, q ≤ 99 ∧ b = 100 * q := by
  unfold bucketsOf at hb
  obtain ⟨i, hi, rfl⟩ := List.mem_map.mp hb
  unfold intervalsOf at hi
  have hfilter := List.of_mem_filter hi
  rw [decide_eq_true_eq] at hfilter
  obtain ⟨h1, h2⟩ := hfilter
  unfold bucketOf
  refine ⟨(i / 100).toNat, ?_, ?_⟩ <;> omega

/-- Any opinion produced by the interval method — under any enumeration order
of the bucket counts that lists actual buckets — carries the candidate 23.976
and a confidence of either `0.126` or `0.462`, in particular nonnegative and
strictly below `12/25 = 0.48`. -/
theorem detect_by_intervals_with_spec (ord : List Int) (t : List SubtitleTiming)
    (d : FramerateDetection)
    (hsound : ∀ k ∈ ord, k ∈ keysOf (bucketsOf t))
    (h : detect_by_intervals_with ord t = some d) :
    0 ≤ d.confidence ∧ d.confidence < 12 / 25 ∧
      d.framerate ∈ COMMON_FRAMERATES ∧ d.method = "interval_analysis" := by
  unfold detect_by_intervals_with at h
  split at h
  · exact absurd h (by simp)
  · dsimp only at h
    split at h
    · exact absurd h (by simp)
    · split at h
      · exact absurd h (by simp)
      · rename_i b heq
        have hbmem : b ∈ bucketsOf t :=
          keysOf_sound _ _ (hsound b (lastMax?_mem _ _ _ heq))
        obtain ⟨q, hq99, rfl⟩ := mem_bucketsOf t _ hbmem
        match q, hq99 with
        | 0, _ =>
          rw [show ((100 : Int) * (0 : ℕ)) = 0 by norm_num, intervalScan_b0] at h
          obtain rfl : (⟨23.976, (1 - 41 / 50) * 0.7, "interval_analysis"⟩ :
              FramerateDetection) = d := by simpa using h
          refine ⟨by norm_num, by norm_num, by simp [COMMON_FRAMERATES], rfl⟩
        | 1, _ =>
          rw [show ((100 : Int) * (1 : ℕ)) = 100 by norm_num, intervalScan_b100] at h
          obtain rfl : (⟨23.976, (1 - 17 / 50) * 0.7, "interval_analysis"⟩ :
              FramerateDetection) = d := by simpa using h
          refine ⟨by norm_num, by norm_num, by simp [COMMON_FRAMERATES], rfl⟩
        | (n + 2), hq =>
          rw [intervalScan_none (100 * ((n + 2 : ℕ) : ℤ)) (by omega)] at h
          exact absurd h (by simp)

/-- The collected value of the duration-pattern fold satisfies any property
that its initial state satisfies and that every guarded update establishes. -/
theorem duration_fold_preserve (t : List SubtitleTiming) (l : List ℚ)
    (acc : Option FramerateDetection × ℚ) (Q : FramerateDetection → Prop)
    (hacc : ∀ d, acc.1 = some d → Q d)
    (hbuild : ∀ fps ∈ l, alignFrac t fps > 0.6 →
      Q ⟨fps, alignFrac t fps * 0.8, "duration_pattern"⟩) :
    ∀ d, (l.foldl (duration_step t) acc).1 = some d → Q d := by
  induction l generalizing acc with
  | nil => exact hacc
  | cons fps l ih =>
    intro d hd
    rw [List.foldl_cons] at hd
    refine ih (duration_step t acc fps) ?_
      (fun f hf => hbuild f (List.mem_cons_of_mem _ hf)) d hd
    intro d' hd'
    unfold duration_step at hd'
    dsimp only at hd'
    split at hd'
    · rename_i hcond
      obtain rfl : (⟨fps, alignFrac t fps * 0.8, "duration_pattern"⟩ :
          FramerateDetection) = d' := by simpa using hd'
      exact hbuild fps (List.mem_cons_self _ _) hcond.2
    · exact hacc d' hd'

theorem alignFrac_le_one (t : List SubtitleTiming) (fps : ℚ) (hne : t.length ≠ 0) :
    alignFrac t fps ≤ 1 := by
  unfold alignFrac
  rw [div_le_one (by exact_mod_cast Nat.pos_of_ne_zero hne)]
  exact_mod_cast List.countP_le_length (frameAligned fps)

/-- Any opinion of the duration-pattern method is tagged `duration_pattern`,
names a candidate framerate and has confidence `frac * 0.8` for an alignment
fraction strictly above 0.6 and at most 1. -/
theorem detect_by_duration_patterns_spec (t : List SubtitleTiming)
    (d : FramerateDetection) (h : detect_by_duration_patterns t = some d) :
    d.method = "duration_pattern" ∧ d.framerate ∈ COMMON_FRAMERATES ∧
      ∃ r : ℚ, 0.6 < r ∧ r ≤ 1 ∧ d.confidence = r * 0.8 := by
  unfold detect_by_duration_patterns at h
  split at h
  · exact absurd h (by simp)
  · rename_i hlen
    refine duration_fold_preserve t COMMON_FRAMERATES (none, 0)
      (fun d => d.method = "duration_pattern" ∧ d.framerate ∈ COMMON_FRAMERATES ∧
        ∃ r : ℚ, 0.6 < r ∧ r ≤ 1 ∧ d.confidence = r * 0.8)
      (fun d hd => by simp at hd) ?_ d h
    intro fps hf hgt
    exact ⟨rfl, hf, alignFrac t fps, hgt,
      alignFrac_le_one t fps (by omega), rfl⟩

/-- With at least 5 samples the common-framerate heuristic always offers an
opinion: 29.97 or 25, confidence 0.5 or 0.6. -/
theorem detect_by_common_framerates_spec (t : List SubtitleTiming)
    (h5 : ¬ t.length < 5) :
    ∃ d, detect_by_common_framerates t = some d ∧
      (d.framerate = 29.97 ∨ d.framerate = 25) ∧
      1 / 2 ≤ d.confidence ∧ d.confidence ≤ 3 / 5 ∧
      d.method = "common_framerate_heuristic" := by
  unfold detect_by_common_framerates
  rw [if_neg h5]
  dsimp only
  refine ⟨_, rfl, ?_, ?_, ?_, rfl⟩
  · split_ifs <;> simp <;> norm_num
  · split_ifs <;> norm_num
  · split_ifs <;> norm_num

theorem detect_by_common_framerates_of_some (t : List SubtitleTiming)
    (d : FramerateDetection) (h : detect_by_common_framerates t = some d) :
    (d.framerate = 29.97 ∨ d.framerate = 25) ∧ 1 / 2 ≤ d.confidence ∧
      d.confidence ≤ 3 / 5 ∧ d.method = "common_framerate_heuristic" := by
  unfold detect_by_common_framerates at h
  split at h
  · exact absurd h (by simp)
  · dsimp only at h
    rw [Option.some.injEq] at h
    subst h
    refine ⟨?_, ?_, ?_, rfl⟩
    · split_ifs <;> norm_num
    · split_ifs <;> norm_num
    · split_ifs <;> norm_num

/-- Membership in the detections vector comes from one of the three methods. -/
theorem mem_collect_detections_with (ord : List Int) (t : List SubtitleTiming)
    (d : FramerateDetection) (hd : d ∈ collect_detections_with ord t) :
    detect_by_intervals_with ord t = some d ∨
      detect_by_duration_patterns t = some d ∨
      detect_by_common_framerates t = some d := by
  simp only [collect_detections_with, List.mem_append, Option.mem_toList,
    Option.mem_def] at hd
  tauto

/-- Claim C2: the empty timing sequence short-circuits to the fixed default
result 29.97 / 0.0 / "default" before any method runs. -/
theorem c2_empty_default :
    detect_framerate ([] : List SubtitleTiming) = ⟨29.97, 0.0, "default"⟩ := rfl

/-- Claim C3: with 1 to 4 samples every method abstains (each is below its
own threshold of 10, 20 and 5 samples), and the ensemble falls through to the
fixed fallback result 29.97 / 0.1 / "fallback". -/
theorem c3_short_fallback (t : List SubtitleTiming)
    (h1 : 1 ≤ t.length) (h4 : t.length ≤ 4) :
    detect_by_intervals t = none ∧
      detect_by_duration_patterns t = none ∧
      detect_by_common_framerates t = none ∧
      detect_framerate t = ⟨29.97, 0.1, "fallback"⟩ := by
  have hiv : detect_by_intervals t = none := by
    unfold detect_by_intervals detect_by_intervals_with
    rw [if_pos (by omega)]
  have hdur : detect_by_duration_patterns t = none := by
    unfold detect_by_duration_patterns
    rw [if_pos (by omega)]
  have hcom : detect_by_common_framerates t = none := by
    unfold detect_by_common_framerates
    rw [if_pos (by omega)]
  have hne : t ≠ [] := by
    intro h
    subst h
    simp at h1
  refine ⟨hiv, hdur, hcom, ?_⟩
  rw [detect_framerate, detect_framerate_with_eq_pickBest _ _ hne]
  have hcol : collect_detections_with (keysOf (bucketsOf t)) t = [] := by
    unfold collect_detections_with
    rw [detect_by_intervals] at hiv
    rw [hiv, hdur, hcom]
    rfl
  rw [hcol]
  rfl

/-- Claim C6: on nonempty input the detected framerate is drawn from the
fixed candidate table, or is the fixed default value 29.97. -/
theorem c6_framerate_in_candidates (t : List SubtitleTiming) (hne : t ≠ []) :
    (detect_framerate t).framerate ∈ COMMON_FRAMERATES ∨
      (detect_framerate t).framerate = 29.97 := by
  rw [detect_framerate, detect_framerate_with_eq_pickBest _ _ hne]
  cases hp : pickBest (collect_detections_with (keysOf (bucketsOf t)) t) with
  | none => exact Or.inr rfl
  | some d =>
    rw [Option.getD_some]
    rcases mem_collect_detections_with _ _ _ (pickBest_mem _ _ hp) with hiv | hdur | hcom
    · exact Or.inl (detect_by_intervals_with_spec _ _ _ (fun k hk => hk) hiv).2.2.1
    · exact Or.inl (detect_by_duration_patterns_spec _ _ hdur).2.1
    · rcases (detect_by_common_framerates_of_some _ _ hcom).1 with h | h
      · exact Or.inr h
      · exact Or.inl (by rw [h]; norm_num [COMMON_FRAMERATES, List.mem_cons])

/-- Claim C8: every detection result has confidence between 0 and 1, on any
timing sequence whatsoever (including degenerate ones). -/
theorem c8_confidence_in_unit_interval (t : List SubtitleTiming) :
    0 ≤ (detect_framerate t).confidence ∧ (detect_framerate t).confidence ≤ 1 := by
  by_cases hne : t = []
  · subst hne
    rw [c2_empty_default]
    norm_num
  · rw [detect_framerate, detect_framerate_with_eq_pickBest _ _ hne]
    cases hp : pickBest (collect_detections_with (keysOf (bucketsOf t)) t) with
    | none =>
      rw [Option.getD_none]
      norm_num
    | some d =>
      rw [Option.getD_some]
      rcases mem_collect_detections_with _ _ _ (pickBest_mem _ _ hp) with hiv | hdur | hcom
      · obtain ⟨hpos, hlt, -, -⟩ := detect_by_intervals_with_spec _ _ _ (fun k hk => hk) hiv
        constructor
        · exact hpos
        · linarith
      · obtain ⟨-, -, r, hr1, hr2, hconf⟩ := detect_by_duration_patterns_spec _ _ hdur
        rw [hconf]
        constructor <;> nlinarith
      · obtain ⟨-, hle, hge, -⟩ := detect_by_common_framerates_of_some _ _ hcom
        constructor <;> linarith

/-- Claim C7: the returned detection is the first collected proposal of
maximal confidence: it occurs in the collected vector, nothing in the vector
has larger confidence, and every strictly earlier entry has strictly smaller
confidence (so on ties the earlier-collected method wins, the collection
order being interval analysis, duration pattern, then the heuristic). -/
theorem c7_selects_earliest_max (t : List SubtitleTiming) (hne : t ≠ [])
    (hcol : collect_detections t ≠ []) :
    ∃ i : Fin (collect_detections t).length,
      detect_framerate t = (collect_detections t).get i ∧
        (∀ j, ((collect_detections t).get j).confidence ≤
          (detect_framerate t).confidence) ∧
        ∀ j : Fin (collect_detections t).length, (j : ℕ) < (i : ℕ) →
          ((collect_detections t).get j).confidence <
            (detect_framerate t).confidence := by
  cases hp : pickBest (collect_detections t) with
  | none => exact absurd ((pickBest_eq_none _).mp hp) hcol
  | some d =>
    have hdet : detect_framerate t = d := by
      rw [detect_framerate, detect_framerate_with_eq_pickBest _ _ hne]
      rw [show collect_detections_with (keysOf (bucketsOf t)) t =
        collect_detections t from rfl, hp]
      rfl
    rw [hdet]
    exact pickBest_spec _ _ hp

theorem alignFrac?_eq (t : List SubtitleTiming) (fps : ℚ) (hne : t.length ≠ 0) :
    alignFrac? t fps = some (alignFrac t fps) := by
  unfold alignFrac? alignFrac qdiv?
  rw [if_neg (by exact_mod_cast hne)]

theorem duration_fold_checked_eq (t : List SubtitleTiming) (l : List ℚ)
    (acc : Option FramerateDetection × ℚ) (hne : t.length ≠ 0) :
    l.foldl (duration_step_checked t) (some acc) =
      some (l.foldl (duration_step t) acc) := by
  induction l generalizing acc with
  | nil => rfl
  | cons fps l ih =>
    rw [List.foldl_cons, List.foldl_cons]
    have hstep : duration_step_checked t (some acc) fps =
        some (duration_step t acc fps) := by
      obtain ⟨best, score⟩ := acc
      unfold duration_step_checked duration_step
      rw [alignFrac?_eq t fps hne]
    rw [hstep, ih]

theorem detect_by_duration_patterns_checked_eq (t : List SubtitleTiming) :
    detect_by_duration_patterns_checked t = some (detect_by_duration_patterns t) := by
  unfold detect_by_duration_patterns_checked detect_by_duration_patterns
  split
  · rfl
  · rename_i hlen
    rw [duration_fold_checked_eq t COMMON_FRAMERATES (none, 0) (by omega)]
    rfl

/-- Claim C9: the ensemble never fails.  The checked pipeline — which fails
exactly where a confidence could be computed by a division with a zero
divisor, producing the NaN that would make the `partial_cmp(..).unwrap()`
comparison panic — always succeeds, and agrees with the total model. -/
theorem c9_never_fails (t : List SubtitleTiming) :
    detect_framerate_checked t = some (detect_framerate t) := by
  unfold detect_framerate_checked
  split
  · rename_i hemp
    rw [detect_framerate, detect_framerate_with, if_pos hemp]
  · rename_i hemp
    rw [detect_by_duration_patterns_checked_eq, Option.map_some']
    rw [detect_framerate, detect_framerate_with, if_neg hemp]
    rfl

/-- The selection outcome never depends on the interval method's bucket
enumeration order: any opinion it offers is strictly dominated by the
heuristic's (which is present whenever the interval method is eligible), so
the selection equals that over the remaining two methods. -/
theorem pickBest_collect_with (ord : List Int) (t : List SubtitleTiming)
    (hsound : ∀ k ∈ ord, k ∈ keysOf (bucketsOf t)) :
    pickBest (collect_detections_with ord t) =
      pickBest ((detect_by_duration_patterns t).toList
        ++ (detect_by_common_framerates t).toList) := by
  unfold collect_detections_with
  cases hiv : detect_by_intervals_with ord t with
  | none => simp
  | some d =>
    have hlen : ¬ t.length < 10 := by
      intro hlt
      unfold detect_by_intervals_with at hiv
      rw [if_pos hlt] at hiv
      exact absurd hiv (by simp)
    obtain ⟨-, hdlt, -, -⟩ := detect_by_intervals_with_spec ord t d hsound hiv
    obtain ⟨c, hc, -, hcge, -, -⟩ := detect_by_common_framerates_spec t (by omega)
    rw [Option.toList_some, List.singleton_append]
    apply pickBest_cons_of_lt
    exact ⟨c, by simp [hc], by linarith⟩

/-- Claim C10: the ensemble result is the same under any two enumeration
orders of the interval method's gap-bucket counts — in particular it does not
depend on the arbitrary `HashMap` iteration order, even when several buckets
tie for the highest count. -/
theorem c10_deterministic (t : List SubtitleTiming) (ord₁ ord₂ : List Int)
    (h₁ : ValidBucketOrder t ord₁) (h₂ : ValidBucketOrder t ord₂) :
    detect_framerate_with ord₁ t = detect_framerate_with ord₂ t := by
  by_cases hemp : t = []
  · subst hemp
    rfl
  · rw [detect_framerate_with_eq_pickBest _ _ hemp,
      detect_framerate_with_eq_pickBest _ _ hemp,
      pickBest_collect_with ord₁ t (fun k hk => (h₁.2 k).mp hk),
      pickBest_collect_with ord₂ t (fun k hk => (h₂.2 k).mp hk)]

theorem foldl_keys_mem (a : ℤ) (m : ℕ) (acc : List ℤ) (ha : a ∈ acc) :
    (List.replicate m a).foldl
      (fun acc i => if i ∈ acc then acc else acc ++ [i]) acc = acc := by
  induction m with
  | zero => rfl
  | succ m ih =>
    rw [List.replicate_succ, List.foldl_cons, if_pos ha]
    exact ih

theorem keysOf_replicate (m : ℕ) (hm : m ≠ 0) (a : ℤ) :
    keysOf (List.replicate m a) = [a] := by
  obtain ⟨m', rfl⟩ := Nat.exists_eq_succ_of_ne_zero hm
  unfold keysOf
  rw [List.replicate_succ, List.foldl_cons]
  have h0 : (if a ∈ ([] : List ℤ) then ([] : List ℤ) else [] ++ [a]) = [a] := by simp
  rw [h0]
  exact foldl_keys_mem a m' [a] (by simp)

theorem zip_tail_length (t : List SubtitleTiming) :
    (t.zip t.tail).length = t.length - 1 := by
  rw [List.length_zip, List.length_tail]
  omega

theorem intervalsOf_const_42 (t : List SubtitleTiming)
    (hgap : ∀ p ∈ t.zip t.tail, p.2.start_ms - p.1.end_ms = 42) :
    intervalsOf t = List.replicate (t.length - 1) 42 := by
  unfold intervalsOf
  have hmap : (t.zip t.tail).map (fun p => p.2.start_ms - p.1.end_ms)
      = List.replicate (t.length - 1) 42 := by
    rw [List.eq_replicate_iff]
    constructor
    · rw [List.length_map, zip_tail_length]
    · intro b hb
      obtain ⟨p, hp, rfl⟩ := List.mem_map.mp hb
      exact hgap p hp
  rw [hmap, List.filter_replicate_of_pos (by decide)]

/-- Shared computation for C1: with at least 10 cues and every inter-cue gap
exactly 42 ms, all gaps land in bucket 0 (integer division `42/100*100 = 0`),
and the scan then matches the first candidate, 23.976, at its one-frame
magnitude 41 with confidence `(1 - 41/50) * 0.7 = 0.126`. -/
theorem interval_42_result (t : List SubtitleTiming) (hlen : 10 ≤ t.length)
    (hgap : ∀ p ∈ t.zip t.tail, p.2.start_ms - p.1.end_ms = 42) :
    detect_by_intervals t =
      some ⟨23.976, (1 - 41 / 50) * 0.7, "interval_analysis"⟩ := by
  have hint : intervalsOf t = List.replicate (t.length - 1) 42 :=
    intervalsOf_const_42 t hgap
  have hbuck : bucketsOf t = List.replicate (t.length - 1) 0 := by
    unfold bucketsOf
    rw [hint, List.map_replicate]
    norm_num [bucketOf]
  unfold detect_by_intervals detect_by_intervals_with
  rw [if_neg (by omega)]
  dsimp only
  rw [hint, hbuck, keysOf_replicate _ (by omega) 0]
  rw [if_neg (by simp [List.replicate_eq_nil_iff]; omega)]
  have hlm : lastMax?
      (fun k => ((List.replicate (t.length - 1) 42).map bucketOf).count k) [0] =
      some 0 := rfl
  rw [hlm]
  exact intervalScan_b0

/-- Claim C1, amended: for at least 10 cues with all gaps exactly 42 ms, the
interval method proposes 23.976 (not 24.0) with confidence 0.126 (not at
least 0.686), because the gaps are bucketed by truncation to 0, which the
first candidate 23.976 already matches within the 50 ms tolerance. -/
theorem c1_interval_42ms_amended (t : List SubtitleTiming) (hlen : 10 ≤ t.length)
    (hgap : ∀ p ∈ t.zip t.tail, p.2.start_ms - p.1.end_ms = 42) :
    detect_by_intervals t =
      some ⟨23.976, (1 - 41 / 50) * 0.7, "interval_analysis"⟩ ∧
      ((1 - 41 / 50) * 0.7 : ℚ) = 0.126 := by
  exact ⟨interval_42_result t hlen hgap, by norm_num⟩

/-- Below `2^24` every integer is an exact `f32` value, so the cast is the
identity there. -/
theorem f32cast_eq_self (n : ℤ) (h0 : 0 ≤ n) (h : n < 16777216) :
    f32cast n = n := by
  unfold f32cast roundEvenMult f32ulpOf
  rw [abs_of_nonneg h0, if_pos h]
  simp [Int.emod_one, Int.ediv_one]

theorem milliseconds_roundtrip (ts : Timestamp) (hv : ValidTimestamp ts)
    (hc : CanonicalTimestamp ts) :
    milliseconds_to_timestamp (timestamp_to_milliseconds ts) = ts := by
  obtain ⟨th, tm, tsec, tmi⟩ := ts
  unfold ValidTimestamp at hv
  unfold CanonicalTimestamp at hc
  dsimp only at hv hc
  obtain ⟨h1, h2, h3, h4, h5, h6, h7, h8⟩ := hv
  obtain ⟨hcm, hcs⟩ := hc
  unfold milliseconds_to_timestamp timestamp_to_milliseconds
  dsimp only
  rw [Timestamp.mk.injEq]
  refine ⟨?_, ?_, ?_, ?_⟩ <;> omega

/-- Claim C5, amended: converting with equal source and target framerates is
the identity on clock-canonical timestamps (minutes and seconds below 60)
whose millisecond value is below `2^24`, where the `ms as f32` cast is
exact.  On merely digit-valid timestamps the re-rendering normalizes
overflowing fields, and beyond `2^24` the cast itself moves the value even
at ratio 1.0 (see the counterexample for both failures). -/
theorem c5_rescale_identity_amended (ts : Timestamp) (fps : ℚ) (hf : 0 < fps)
    (hv : ValidTimestamp ts) (hc : CanonicalTimestamp ts)
    (hrep : timestamp_to_milliseconds ts < 16777216) :
    convert_timestamp_fps ts fps fps = ts := by
  have h0 : 0 ≤ timestamp_to_milliseconds ts := by
    obtain ⟨th, tm, tsec, tmi⟩ := ts
    unfold ValidTimestamp at hv
    dsimp only at hv
    obtain ⟨h1, h2, h3, h4, h5, h6, h7, h8⟩ := hv
    unfold timestamp_to_milliseconds
    dsimp only
    omega
  unfold convert_timestamp_fps convert_timestamp
  rw [div_self (ne_of_gt hf), mul_one, f32cast_eq_self _ h0 hrep, round_intCast,
    milliseconds_roundtrip ts hv hc]

theorem frameAligned_24_of_mult (tm : SubtitleTiming)
    (h : ∃ k : ℕ, k ≤ 100 ∧ tm.duration_ms = round ((k : ℚ) * (1000 / 24))) :
    frameAligned 24.0 tm = true := by
  obtain ⟨k, hk100, hk⟩ := h
  have h1 : |(k : ℚ) * (1000 / 24) - ((tm.duration_ms : ℚ))| ≤ 1 / 2 := by
    rw [hk]
    exact_mod_cast abs_sub_round ((k : ℚ) * (1000 / 24))
  obtain ⟨h1lo, h1hi⟩ := abs_le.mp h1
  have hkq : (k : ℚ) ≤ 100 := by exact_mod_cast hk100
  have hkq0 : (0 : ℚ) ≤ (k : ℚ) := by positivity
  have hd0 : 0 ≤ tm.duration_ms := by
    by_contra hneg
    push_neg at hneg
    have hneg1 : tm.duration_ms ≤ -1 := by omega
    have hnegq : (tm.duration_ms : ℚ) ≤ -1 := by exact_mod_cast hneg1
    nlinarith
  have hdle : tm.duration_ms ≤ 4167 := by
    have hmul : (k : ℚ) * (1000 / 24) ≤ 100 * (1000 / 24) :=
      mul_le_mul_of_nonneg_right hkq (by norm_num)
    by_contra hgt
    push_neg at hgt
    have hgtq : (4168 : ℚ) ≤ (tm.duration_ms : ℚ) := by exact_mod_cast hgt
    nlinarith
  have hcast : f32cast tm.duration_ms = tm.duration_ms :=
    f32cast_eq_self _ hd0 (by omega)
  unfold frameAligned
  apply decide_eq_true
  rw [hcast]
  have hfd : ((1000 : ℚ) / (24.0 : ℚ)) = 125 / 3 := by norm_num
  rw [hfd, div_div_eq_mul_div]
  have habs : |(tm.duration_ms : ℚ) * 3 / 125 - (k : ℚ)| ≤ 3 / 250 := by
    have heq : (tm.duration_ms : ℚ) * 3 / 125 - (k : ℚ) =
        ((tm.duration_ms : ℚ) - (k : ℚ) * (1000 / 24)) * (3 / 125) := by ring
    rw [heq, abs_mul, abs_of_pos (show (0 : ℚ) < 3 / 125 by norm_num),
      abs_sub_comm]
    nlinarith [abs_nonneg ((k : ℚ) * (1000 / 24) - (tm.duration_ms : ℚ))]
  obtain ⟨hlo, hhi⟩ := abs_le.mp habs
  have hround : round ((tm.duration_ms : ℚ) * 3 / 125) = (k : ℤ) := by
    rw [round_eq, Int.floor_eq_iff]
    push_cast
    constructor <;> linarith
  rw [hround]
  rw [abs_le] at habs
  rw [abs_lt]
  push_cast
  constructor <;> [linarith; linarith]

theorem alignFrac_24_eq_one (t : List SubtitleTiming) (hlen : t.length = 20)
    (hdur : ∀ tm ∈ t, ∃ k : ℕ, k ≤ 100 ∧ tm.duration_ms = round ((k : ℚ) * (1000 / 24))) :
    alignFrac t 24.0 = 1 := by
  unfold alignFrac
  rw [List.countP_eq_length.mpr (fun tm hm => frameAligned_24_of_mult tm (hdur tm hm))]
  rw [hlen]
  norm_num

theorem duration_fold_keep (t : List SubtitleTiming) (l : List ℚ)
    (acc : Option FramerateDetection × ℚ)
    (h : ∀ fps ∈ l, alignFrac t fps ≤ acc.2) :
    l.foldl (duration_step t) acc = acc := by
  induction l with
  | nil => rfl
  | cons fps l ih =>
    rw [List.foldl_cons]
    have hstep : duration_step t acc fps = acc := by
      unfold duration_step
      dsimp only
      rw [if_neg]
      rintro ⟨hgt, -⟩
      exact absurd hgt (not_lt.mpr (h fps (List.mem_cons_self _ _)))
    rw [hstep]
    exact ih (fun f hf => h f (List.mem_cons_of_mem _ hf))

/-- Shared computation for C4: with exactly 20 cues whose durations are
integer-rounded multiples (of at most 100 frames) of the 24 fps frame
duration, the duration method reaches a perfect alignment fraction at
24 fps, but 23.976 is scanned first and wins whenever its own alignment
fraction is also perfect (the best-score update needs a strict
improvement).  The 100-frame bound keeps every duration below 4168 ms: the
`i32 as f32` cast is then exact, and the modelled quotient sits within
`3/250` of an integer at 24 fps, two orders of magnitude clear of the 0.1
threshold, so the `f32` division rounding (about one part in `2^24`) the
exact model idealizes cannot flip that test either.  For very large
in-range durations it can — there the cast alone misaligns 24 fps (see
`frameAligned`), and the method may select a different rate entirely. -/
theorem duration_mult24_result (t : List SubtitleTiming) (hlen : t.length = 20)
    (hdur : ∀ tm ∈ t, ∃ k : ℕ, k ≤ 100 ∧ tm.duration_ms = round ((k : ℚ) * (1000 / 24))) :
    detect_by_duration_patterns t =
      some ⟨if alignFrac t 23.976 = 1 then 23.976 else 24.0, 0.8,
        "duration_pattern"⟩ := by
  have h24 : alignFrac t 24.0 = 1 := alignFrac_24_eq_one t hlen hdur
  have hle : ∀ fps, alignFrac t fps ≤ 1 := fun fps =>
    alignFrac_le_one t fps (by omega)
  unfold detect_by_duration_patterns
  rw [if_neg (by omega)]
  rw [show COMMON_FRAMERATES =
    23.976 :: 24.0 :: [25.0, 29.97, 30.0, 50.0, 59.94, 60.0] from rfl]
  rw [List.foldl_cons, List.foldl_cons]
  by_cases h1 : alignFrac t 23.976 = 1
  · have hstep1 : duration_step t (none, 0) 23.976 =
        (some ⟨23.976, alignFrac t 23.976 * 0.8, "duration_pattern"⟩,
          alignFrac t 23.976) := by
      unfold duration_step
      dsimp only
      rw [if_pos ⟨by rw [h1]; norm_num, by rw [h1]; norm_num⟩]
    have hstep2 : duration_step t
        (some ⟨23.976, alignFrac t 23.976 * 0.8, "duration_pattern"⟩,
          alignFrac t 23.976) 24.0 =
        (some ⟨23.976, alignFrac t 23.976 * 0.8, "duration_pattern"⟩,
          alignFrac t 23.976) := by
      unfold duration_step
      dsimp only
      rw [if_neg]
      rintro ⟨hgt, -⟩
      rw [h24, h1] at hgt
      exact lt_irrefl 1 hgt
    rw [hstep1, hstep2,
      duration_fold_keep t _ _ (fun f hf => by dsimp only; rw [h1]; exact hle f)]
    rw [h1, if_pos rfl]
    norm_num
  · have hstep2 : duration_step t (duration_step t (none, 0) 23.976) 24.0 =
        (some ⟨24.0, alignFrac t 24.0 * 0.8, "duration_pattern"⟩,
          alignFrac t 24.0) := by
      have hsnd : (duration_step t (none, 0) 23.976).2 < 1 := by
        unfold duration_step
        dsimp only
        split_ifs with hcond
        · exact lt_of_le_of_ne (hle _) h1
        · norm_num
      unfold duration_step
      dsimp only
      rw [if_pos ⟨by rw [h24]; exact hsnd, by rw [h24]; norm_num⟩]
    rw [hstep2,
      duration_fold_keep t _ _ (fun f hf => by dsimp only; rw [h24]; exact hle f)]
    rw [if_neg h1, h24]
    norm_num

/-- Claim C4, amended: for 20 cues whose durations are integer-rounded exact
multiples of `1000/24` ms of at most 100 frames each (the regime of the
spec's synthetic cues, where float rounding cannot flip the 24 fps
alignment test), the duration-pattern method proposes with confidence
`1.0 * 0.8 = 0.8 > 0.6 * 0.8`, but the framerate is 23.976 rather than 24.0
whenever all the durations also align at 23.976 (which holds for small
frame counts); it is 24.0 only when some duration breaks the 23.976
alignment. -/
theorem c4_duration_pattern_amended (t : List SubtitleTiming)
    (hlen : t.length = 20)
    (hdur : ∀ tm ∈ t, ∃ k : ℕ, k ≤ 100 ∧ tm.duration_ms = round ((k : ℚ) * (1000 / 24))) :
    ∃ d, detect_by_duration_patterns t = some d ∧
      d.method = "duration_pattern" ∧ d.confidence = 0.8 ∧
      d.confidence > 0.6 * 0.8 ∧
      (d.framerate = 23.976 ∨ d.framerate = 24.0) := by
  refine ⟨_, duration_mult24_result t hlen hdur, rfl, rfl, by norm_num, ?_⟩
  dsimp only
  split_ifs with h
  · exact Or.inl rfl
  · exact Or.inr rfl

/-- Ten cues of duration 1000 ms with every inter-cue gap exactly 42 ms. -/
def exhibit42 : List SubtitleTiming :=
  [⟨0, 1000, 1000⟩, ⟨1042, 2042, 1000⟩, ⟨2084, 3084, 1000⟩, ⟨3126, 4126, 1000⟩,
   ⟨4168, 5168, 1000⟩, ⟨5210, 6210, 1000⟩, ⟨6252, 7252, 1000⟩, ⟨7294, 8294, 1000⟩,
   ⟨8336, 9336, 1000⟩, ⟨9378, 10378, 1000⟩]

/-- Claim C1 fails on the code: on ten cues with all gaps exactly 42 ms the
interval method returns 23.976 with confidence 0.126, not 24.0 with
confidence at least `0.98 * 0.7`. -/
theorem c1_interval_42ms_counterexample :
    detect_by_intervals exhibit42 =
      some ⟨23.976, (1 - 41 / 50) * 0.7, "interval_analysis"⟩ ∧
      (23.976 : ℚ) ≠ 24.0 ∧ ((1 - 41 / 50) * 0.7 : ℚ) < 0.98 * 0.7 :=
  ⟨interval_42_result exhibit42 (by decide) (by decide), by norm_num, by norm_num⟩

theorem c1_interval_42ms_witness :
    10 ≤ exhibit42.length ∧
      (∀ p ∈ exhibit42.zip exhibit42.tail, p.2.start_ms - p.1.end_ms = 42) ∧
      (detect_by_intervals exhibit42 =
        some ⟨23.976, (1 - 41 / 50) * 0.7, "interval_analysis"⟩ ∧
        ((1 - 41 / 50) * 0.7 : ℚ) = 0.126) :=
  ⟨by decide, by decide,
    c1_interval_42ms_amended exhibit42 (by decide) (by decide)⟩

/-- Twenty cues whose duration 42 ms is the integer rounding of one frame
duration at 24 fps (`round(1000/24) = 42`). -/
def exhibit24 : List SubtitleTiming := List.replicate 20 ⟨0, 42, 42⟩

theorem exhibit24_durations :
    ∀ tm ∈ exhibit24, ∃ k : ℕ, k ≤ 100 ∧ tm.duration_ms = round ((k : ℚ) * (1000 / 24)) := by
  intro tm hm
  rw [List.eq_of_mem_replicate hm]
  refine ⟨1, by norm_num, ?_⟩
  rw [round_eq]
  norm_num

theorem exhibit24_frac : alignFrac exhibit24 23.976 = 1 := by
  unfold alignFrac
  rw [List.countP_eq_length.mpr ?all]
  case all =>
    intro tm hm
    rw [List.eq_of_mem_replicate hm]
    unfold frameAligned
    apply decide_eq_true
    have hcast : f32cast (42 : ℤ) = 42 := by decide
    have hr : round (((42 : ℤ) : ℚ) / (1000 / 23.976)) = 1 := by
      rw [round_eq]
      norm_num
    dsimp only
    rw [hcast, hr, abs_lt]
    constructor <;> norm_num
  norm_num [exhibit24]

/-- Claim C4 fails on the code: on twenty cues of duration 42 ms (one frame
at 24 fps, rounded) the duration method returns 23.976, not 24.0, because
23.976 is scanned first and all durations also align at 23.976. -/
theorem c4_duration_pattern_counterexample :
    detect_by_duration_patterns exhibit24 =
      some ⟨23.976, 0.8, "duration_pattern"⟩ ∧ (23.976 : ℚ) ≠ 24.0 := by
  constructor
  · rw [duration_mult24_result exhibit24 (by decide) exhibit24_durations,
      exhibit24_frac, if_pos rfl]
  · norm_num

theorem c4_duration_pattern_witness :
    exhibit24.length = 20 ∧
      (∀ tm ∈ exhibit24, ∃ k : ℕ, k ≤ 100 ∧ tm.duration_ms = round ((k : ℚ) * (1000 / 24))) ∧
      (∃ d, detect_by_duration_patterns exhibit24 = some d ∧
        d.method = "duration_pattern" ∧ d.confidence = 0.8 ∧
        d.confidence > 0.6 * 0.8 ∧
        (d.framerate = 23.976 ∨ d.framerate = 24.0)) :=
  ⟨by decide, exhibit24_durations,
    c4_duration_pattern_amended exhibit24 (by decide) exhibit24_durations⟩

/-- A digit-valid but clock-overflowing timestamp, `00:99:00,000`. -/
def tsOverflow : Timestamp := ⟨0, 99, 0, 0⟩

/-- A clock-canonical timestamp, `04:39:37,217`, whose millisecond value
`16777217 = 2^24 + 1` is not an exact `f32`. -/
def tsBig : Timestamp := ⟨4, 39, 37, 217⟩

/-- Claim C5 fails on the code in two ways: a non-canonical (yet
regex-valid) `00:99:00,000` is re-rendered normalized as `01:39:00,000`,
and the perfectly canonical `04:39:37,217` is moved to `04:39:37,216` at
ratio 1.0 because its millisecond value `2^24 + 1` is rounded by the
`ms as f32` cast. -/
theorem c5_rescale_identity_counterexample :
    (ValidTimestamp tsOverflow ∧
      convert_timestamp_fps tsOverflow 24.0 24.0 = ⟨1, 39, 0, 0⟩ ∧
      convert_timestamp_fps tsOverflow 24.0 24.0 ≠ tsOverflow) ∧
    (ValidTimestamp tsBig ∧ CanonicalTimestamp tsBig ∧
      convert_timestamp_fps tsBig 24.0 24.0 = ⟨4, 39, 37, 216⟩ ∧
      convert_timestamp_fps tsBig 24.0 24.0 ≠ tsBig) := by
  have key₁ : convert_timestamp_fps tsOverflow 24.0 24.0 = ⟨1, 39, 0, 0⟩ := by
    unfold convert_timestamp_fps convert_timestamp
    rw [show ((24.0 : ℚ) / 24.0) = 1 by norm_num, mul_one, round_intCast]
    decide
  have key₂ : convert_timestamp_fps tsBig 24.0 24.0 = ⟨4, 39, 37, 216⟩ := by
    unfold convert_timestamp_fps convert_timestamp
    rw [show ((24.0 : ℚ) / 24.0) = 1 by norm_num, mul_one, round_intCast]
    decide
  exact ⟨⟨by decide, key₁, by rw [key₁]; decide⟩,
    by decide, by decide, key₂, by rw [key₂]; decide⟩

theorem c5_rescale_identity_witness :
    (0 : ℚ) < 24.0 ∧ ValidTimestamp ⟨1, 23, 45, 678⟩ ∧
      CanonicalTimestamp ⟨1, 23, 45, 678⟩ ∧
      timestamp_to_milliseconds ⟨1, 23, 45, 678⟩ < 16777216 ∧
      convert_timestamp_fps ⟨1, 23, 45, 678⟩ 24.0 24.0 = ⟨1, 23, 45, 678⟩ :=
  ⟨by norm_num, by decide, by decide, by decide,
    c5_rescale_identity_amended ⟨1, 23, 45, 678⟩ 24.0 (by norm_num) (by decide)
      (by decide) (by decide)⟩

theorem c3_short_fallback_witness :
    1 ≤ ([⟨0, 500, 500⟩, ⟨600, 1100, 500⟩] : List SubtitleTiming).length ∧
      ([⟨0, 500, 500⟩, ⟨600, 1100, 500⟩] : List SubtitleTiming).length ≤ 4 ∧
      (detect_by_intervals [⟨0, 500, 500⟩, ⟨600, 1100, 500⟩] = none ∧
        detect_by_duration_patterns [⟨0, 500, 500⟩, ⟨600, 1100, 500⟩] = none ∧
        detect_by_common_framerates [⟨0, 500, 500⟩, ⟨600, 1100, 500⟩] = none ∧
        detect_framerate [⟨0, 500, 500⟩, ⟨600, 1100, 500⟩] =
          ⟨29.97, 0.1, "fallback"⟩) :=
  ⟨by decide, by decide, c3_short_fallback _ (by decide) (by decide)⟩

theorem c6_framerate_in_candidates_witness :
    ([⟨0, 1, 1⟩] : List SubtitleTiming) ≠ [] ∧
      ((detect_framerate [⟨0, 1, 1⟩]).framerate ∈ COMMON_FRAMERATES ∨
        (detect_framerate [⟨0, 1, 1⟩]).framerate = 29.97) :=
  ⟨by simp, c6_framerate_in_candidates _ (by simp)⟩

/-- Five cues at identical timestamps, enough for the heuristic method only. -/
def exhibitHeuristic : List SubtitleTiming :=
  [⟨0, 1000, 1000⟩, ⟨0, 1000, 1000⟩, ⟨0, 1000, 1000⟩, ⟨0, 1000, 1000⟩,
   ⟨0, 1000, 1000⟩]

theorem exhibitHeuristic_collect_ne : collect_detections exhibitHeuristic ≠ [] := by
  obtain ⟨c, hc, -⟩ := detect_by_common_framerates_spec exhibitHeuristic (by decide)
  intro h
  rw [collect_detections, collect_detections_with, hc] at h
  simp at h

theorem c7_selects_earliest_max_witness :
    exhibitHeuristic ≠ [] ∧ collect_detections exhibitHeuristic ≠ [] ∧
      (∃ i : Fin (collect_detections exhibitHeuristic).length,
        detect_framerate exhibitHeuristic =
          (collect_detections exhibitHeuristic).get i ∧
          (∀ j, ((collect_detections exhibitHeuristic).get j).confidence ≤
            (detect_framerate exhibitHeuristic).confidence) ∧
          ∀ j : Fin (collect_detections exhibitHeuristic).length,
            (j : ℕ) < (i : ℕ) →
            ((collect_detections exhibitHeuristic).get j).confidence <
              (detect_framerate exhibitHeuristic).confidence) :=
  ⟨by simp [exhibitHeuristic], exhibitHeuristic_collect_ne,
    c7_selects_earliest_max exhibitHeuristic (by simp [exhibitHeuristic])
      exhibitHeuristic_collect_ne⟩

/-- Ten cues whose kept gaps split evenly between buckets 0 (gap 42 ms) and
100 (gap 142 ms): the two buckets tie at four occurrences each, so which one
`max_by_key` returns depends on the map iteration order. -/
def exhibitTie : List SubtitleTiming :=
  [⟨0, 100, 100⟩, ⟨142, 242, 100⟩, ⟨384, 484, 100⟩, ⟨526, 626, 100⟩,
   ⟨768, 868, 100⟩, ⟨910, 1010, 100⟩, ⟨1152, 1252, 100⟩, ⟨1294, 1394, 100⟩,
   ⟨1536, 1636, 100⟩, ⟨1636, 1736, 100⟩]

theorem exhibitTie_keys : keysOf (bucketsOf exhibitTie) = [0, 100] := by decide

theorem exhibitTie_order₁ : ValidBucketOrder exhibitTie [0, 100] := by
  constructor
  · decide
  · intro k
    rw [exhibitTie_keys]

theorem exhibitTie_order₂ : ValidBucketOrder exhibitTie [100, 0] := by
  constructor
  · decide
  · intro k
    rw [exhibitTie_keys]
    constructor <;> (intro h; simp at h ⊢; tauto)

theorem c10_deterministic_witness :
    ValidBucketOrder exhibitTie [0, 100] ∧ ValidBucketOrder exhibitTie [100, 0] ∧
      detect_framerate_with [0, 100] exhibitTie =
        detect_framerate_with [100, 0] exhibitTie :=
  ⟨exhibitTie_order₁, exhibitTie_order₂,
    c10_deterministic exhibitTie [0, 100] [100, 0] exhibitTie_order₁
      exhibitTie_order₂⟩

end Subsync
